import Mathlib

set_option maxRecDepth 8000

/-!
Shallow embedding of src/scraper.js (sitemap-content-generator).

The pure text pipeline (blog filter, URL-path transform, keyword vs phrase
classification, isValidKeyword) is translated directly from the body of
processSitemap.  The effectful parts (fetch, XML parse, article generation,
retry loops, worker scheduling) are modelled with explicit oracles for the
external calls and a step relation for the worker scheduler in main().
-/

namespace Scraper

/-- Case folding of a character list, modelling JS toLowerCase on ASCII. -/
def lowerC (cs : List Char) : List Char := cs.map Char.toLower

/-- hasPre pat s is true when pat occurs at the start of s
(the model of JS String.startsWith and of regex anchored matching). -/
def hasPre : List Char → List Char → Bool
  | [], _ => true
  | _ :: _, [] => false
  | p :: ps, c :: cs => p == c && hasPre ps cs

/-- hasSub pat s is true when pat occurs contiguously somewhere inside s
(the model of an unanchored regex literal match). -/
def hasSub (pat : List Char) : List Char → Bool
  | [] => pat.isEmpty
  | c :: cs => hasPre pat (c :: cs) || hasSub pat cs

/-- endsL suf s is true when s ends with suf (model of JS String.endsWith). -/
def endsL (suf s : List Char) : Bool := hasPre suf.reverse s.reverse

/-- Accumulator-based splitting on the single space character,
modelling JS String.split with separator a single space. -/
def splitAux : List Char → List Char → List (List Char)
  | [], acc => [acc.reverse]
  | c :: cs, acc => if c = ' ' then acc.reverse :: splitAux cs [] else splitAux cs (c :: acc)

/-- splitSp cs splits cs at every space, keeping empty pieces,
exactly as JS split does. -/
def splitSp (cs : List Char) : List (List Char) := splitAux cs []

/-- blankT w models the JS truthiness test of w.trim(): true when the
token has some non-whitespace character. -/
def blankT (w : List Char) : Bool := w.any (fun c => !c.isWhitespace)

/-- The five alternatives of the rejection regex in processSitemap, line 58:
(blog|blogs|blogging|blog-post|blog-posts), flag i. -/
def blogPatterns : List String := ["blog", "blogs", "blogging", "blog-post", "blog-posts"]

/-- blogTest url models the regex test on line 58 of scraper.js.  The regex
is unanchored and case-insensitive, and it is applied to the WHOLE raw URL
string, so it is true exactly when some alternative occurs anywhere in the
case-folded URL. -/
def blogTest (url : String) : Bool :=
  blogPatterns.any (fun p => hasSub p.toList (lowerC url.toList))

/-- afterHost orig rest finishes the scheme-and-host strip: rest is what
follows the scheme.  The regex [^\x2f]+ needs at least one non-slash
character; when it cannot match, the whole replace is a no-op and the
original string is kept. -/
def afterHost (orig : List Char) : List Char → List Char
  | [] => orig
  | c :: rest => if c = '/' then orig else (c :: rest).dropWhile (fun x => x != '/')

/-- stripSchemeHostL models url.replace of the anchored scheme-host regex
with the empty string (line 60 of scraper.js).  Case-sensitive, as the
source regex carries no i flag. -/
def stripSchemeHostL (cs : List Char) : List Char :=
  if hasPre "https://".toList cs then afterHost cs (cs.drop 8)
  else if hasPre "http://".toList cs then afterHost cs (cs.drop 7)
  else cs

/-- dropTrail removes one trailing slash when present, the second half of
the edge-slash replace of line 61. -/
def dropTrail (a : List Char) : List Char :=
  if a.getLast? = some '/' then a.dropLast else a

/-- stripEdgeSlashesL models the global replace of a leading or trailing
slash (line 61): at most one slash is removed at each end, since the
anchors admit one match per end. -/
def stripEdgeSlashesL (cs : List Char) : List Char :=
  dropTrail (if cs.head? = some '/' then cs.tail else cs)

/-- stripExtL models the replace removing a trailing .html or .php
(line 61); the anchor allows a single removal at the very end. -/
def stripExtL (cs : List Char) : List Char :=
  if endsL ".html".toList cs then (cs.reverse.drop 5).reverse
  else if endsL ".php".toList cs then (cs.reverse.drop 4).reverse
  else cs

/-- mapHyphen models the global replace of hyphens by spaces (line 62). -/
def mapHyphen (cs : List Char) : List Char :=
  cs.map (fun c => if c = '-' then ' ' else c)

/-- titleCaseL models word.charAt(0).toUpperCase() + word.slice(1).toLowerCase(). -/
def titleCaseL : List Char → List Char
  | [] => []
  | c :: rest => c.toUpper :: rest.map Char.toLower

/-- transformWordsL models the index-aware map on lines 66-71: the last
token is fully upper-cased when it case-insensitively equals nj, every
other token is title-cased. -/
def transformWordsL : List (List Char) → List (List Char)
  | [] => []
  | [w] => [if lowerC w = "nj".toList then w.map Char.toUpper else titleCaseL w]
  | w :: rest => titleCaseL w :: transformWordsL rest

/-- The character pipeline of lines 60-64 up to the token list:
strip scheme and host, strip edge slashes, strip a trailing extension,
turn hyphens into spaces, split on spaces. -/
def rawTokens (url : String) : List (List Char) :=
  splitSp (mapHyphen (stripExtL (stripEdgeSlashesL (stripSchemeHostL url.toList))))

/-- transformUrl models the full per-URL map of lines 59-74: the token
list is filtered by the truthiness of word.trim() and the transformed
words are joined with single spaces. -/
def transformUrl (url : String) : String :=
  String.mk (List.intercalate [' '] (transformWordsL ((rawTokens url).filter blankT)))

/-- claimTransformC3 follows the words of the specification for the same
transformation, which say the pipeline drops EMPTY tokens (rather than
whitespace-only ones); it is otherwise identical and is compared with
transformUrl in the theorem for claim C3. -/
def claimTransformC3 (url : String) : String :=
  String.mk (List.intercalate [' ']
    (transformWordsL ((rawTokens url).filter (fun w => !w.isEmpty))))

/-- isValidKeyword is translated from lines 34-37 of scraper.js:
split on spaces, keep the tokens whose trim is truthy, require at
least two of them. -/
def isValidKeyword (keyword : String) : Bool :=
  decide (2 ≤ ((splitSp keyword.toList).filter blankT).length)

/-- strEndsNJ models phrase.endsWith applied to the literal NJ. -/
def strEndsNJ (s : String) : Bool := endsL "NJ".toList s.toList

/-- kwTest is the first condition of the reduce, line 77:
phrase.endsWith NJ and isValidKeyword phrase. -/
def kwTest (p : String) : Bool := strEndsNJ p && isValidKeyword p

/-- phTest is the second condition of the reduce, line 79:
not phrase.endsWith NJ and isValidKeyword phrase. -/
def phTest (p : String) : Bool := !strEndsNJ p && isValidKeyword p

/-- classifyStep is one iteration of the reduce body of lines 76-83. -/
def classifyStep (acc : List String × List String) (phrase : String) :
    List String × List String :=
  if kwTest phrase then (acc.1 ++ [phrase], acc.2)
  else if phTest phrase then (acc.1, acc.2 ++ [phrase])
  else acc

/-- classifyAcc is the reduce of lines 76-83: phrases ending in NJ that
pass isValidKeyword are pushed onto keywords, valid phrases not ending
in NJ onto phrases, everything else is dropped. -/
def classifyAcc (ts : List String) : List String × List String :=
  ts.foldl classifyStep ([], [])

/-- classifyLocs is the whole chain of lines 56-83 applied to the list of
loc values: blog filter on the raw URL, per-URL transform, nonempty
filter, then the classifying reduce. -/
def classifyLocs (locs : List String) : List String × List String :=
  classifyAcc (((locs.filter (fun u => !blogTest u)).map transformUrl).filter
    (fun t => decide (0 < t.length)))

/-- The result of classifying one raw URL, as the specification's
TextClassifier describes it. -/
inductive Classified where
  | keyword (text : String)
  | phrase (text : String)
  | rejected
deriving DecidableEq

/-- classify is the per-URL composition of the pipeline of lines 56-83:
a URL is rejected by the blog test, or dropped when its transform is
empty or fails isValidKeyword, and otherwise lands in keywords exactly
when its transform ends with NJ. -/
def classify (url : String) : Classified :=
  if blogTest url then Classified.rejected
  else if decide (0 < (transformUrl url).length) && isValidKeyword (transformUrl url) then
    (if strEndsNJ (transformUrl url) then Classified.keyword (transformUrl url)
     else Classified.phrase (transformUrl url))
  else Classified.rejected

/-- The path of a URL as the source itself extracts it: what is left of
the raw URL after the scheme-and-host strip of line 60. -/
def urlPath (url : String) : String := String.mk (stripSchemeHostL url.toList)

/-- pathBlogTest applies the five-alternative test of line 58 to the
path component only; claim C2 asserts the code's rejection coincides
with this. -/
def pathBlogTest (url : String) : Bool :=
  blogPatterns.any (fun p => hasSub p.toList (lowerC (urlPath url).toList))

/-! ## Model of the effectful parts of processSitemap -/

/-- A parsed url entry: its loc children, mirroring the xml2js output shape. -/
structure UrlEntry where
  loc : List String
deriving DecidableEq

/-- The object under the urlset key when the root element is urlset: its
url children, absent when the sitemap has no url entries. -/
structure Urlset where
  url : Option (List UrlEntry)
deriving DecidableEq

/-- A parsed XML document as xml2js hands it to line 56: the urlset key is
absent when the root element is not urlset. -/
structure XmlDoc where
  urlset : Option Urlset
deriving DecidableEq

/-- extractLocs models the access result.urlset.url and the map to
urlEntry.loc[0] on lines 56-57.  A missing urlset or url key makes the
JS property access throw, which the embedding renders as an error; a url
entry without a loc head likewise ends in a thrown TypeError downstream. -/
def extractLocs (doc : XmlDoc) : Except String (List String) :=
  match doc.urlset with
  | none => Except.error "TypeError: urlset undefined"
  | some us =>
    match us.url with
    | none => Except.error "TypeError: url undefined"
    | some entries =>
      let heads := entries.map (fun e => e.loc.head?)
      if heads.all Option.isSome then Except.ok (heads.filterMap id)
      else Except.error "TypeError: loc undefined"

/-- The per-domain result built on lines 97-103.  The code returns counts;
the model keeps the two lists themselves, from which the counts that the
summary line prints are their lengths. -/
structure DomainResult where
  domain : String
  keywords : List String
  phrases : List String
  processedKeyword : String
deriving DecidableEq

/-- retryAux models the shared retry loop shape of processSitemap and
generateArticle: while attempts < maxRetries, run the next attempt; on
failure increment attempts, rethrow when the ceiling is reached, and
otherwise sleep delay times the failure count and go round again.  The
oracle step gives the outcome of the n-th attempt (1-based); the second
component collects the sleeps in order.  Fuel equals the remaining loop
iterations; the empty-error base case is the unreachable fall-through of
the while loop. -/
def retryAux {α : Type} (step : Nat → Except String α) (delay maxRetries : Nat) :
    Nat → Nat → Except String α × List Nat
  | _, 0 => (Except.error "", [])
  | attempts, fuel + 1 =>
    if attempts < maxRetries then
      match step (attempts + 1) with
      | Except.ok a => (Except.ok a, [])
      | Except.error e =>
        if attempts + 1 = maxRetries then (Except.error e, [])
        else
          let r := retryAux step delay maxRetries (attempts + 1) fuel
          (r.1, delay * (attempts + 1) :: r.2)
    else (Except.error "", [])

/-- retryRun instantiates the loop exactly as both functions do:
maxRetries = 3, attempts starting at 0. -/
def retryRun {α : Type} (step : Nat → Except String α) (delay : Nat) :
    Except String α × List Nat :=
  retryAux step delay 3 0 3

/-- generateArticle, lines 113-139: three attempts at the completion call
with the same linear backoff; the oracle genStep is the outcome of each
completion attempt. -/
def generateArticle (genStep : Nat → Except String String) (delay : Nat) :
    Except String String × List Nat :=
  retryRun genStep delay

/-- attemptBody is one iteration of the try block of processSitemap
(lines 44-103): fetch and parse, extract the locs, classify, and when
keywords is nonempty draw the random keyword and require the article
generation to succeed.  Directory creation and file writes are modelled
as succeeding.  randIdx is the value of the floor of random times length
(always in range in JS since random is below one); genResult is the
outcome of the inner generateArticle call. -/
def attemptBody (domain : String) (fetch : Except String XmlDoc) (randIdx : Nat)
    (genResult : Except String String) : Except String DomainResult :=
  match fetch with
  | Except.error e => Except.error e
  | Except.ok doc =>
    match extractLocs doc with
    | Except.error e => Except.error e
    | Except.ok locs =>
      if 0 < (classifyLocs locs).1.length then
        match genResult with
        | Except.error e => Except.error e
        | Except.ok _a =>
          Except.ok
            { domain := domain
              keywords := (classifyLocs locs).1
              phrases := (classifyLocs locs).2
              processedKeyword := (classifyLocs locs).1.getD randIdx "" }
      else
        Except.ok
          { domain := domain
            keywords := (classifyLocs locs).1
            phrases := (classifyLocs locs).2
            processedKeyword := "None" }

/-- processStep is the n-th attempt of the outer retry loop: the fetch
and random draw are per-attempt oracles, and the nested generateArticle
retry runs with this attempt's completion oracle. -/
def processStep (domain : String) (fetch : Nat → Except String XmlDoc)
    (randIdx : Nat → Nat) (gen : Nat → Nat → Except String String) (delay : Nat)
    (n : Nat) : Except String DomainResult :=
  attemptBody domain (fetch n) (randIdx n) (generateArticle (gen n) delay).1

/-- processSitemap, lines 39-111: the whole attempt sequence under the
three-attempt retry loop with linear backoff. -/
def processSitemap (domain : String) (fetch : Nat → Except String XmlDoc)
    (randIdx : Nat → Nat) (gen : Nat → Nat → Except String String) (delay : Nat) :
    Except String DomainResult × List Nat :=
  retryRun (processStep domain fetch randIdx gen delay) delay

/-! ## Model of the summary step of main -/

/-- summaryLine renders the template literal of lines 206-208. -/
def summaryLine (r : DomainResult) : String :=
  r.domain ++ ": " ++ toString r.keywords.length ++ " keywords, "
    ++ toString r.phrases.length ++ " phrases, processed keyword: " ++ r.processedKeyword

/-- writtenSummary models lines 210-214: the content written into the
output directory of result r is the FIRST rendered summary whose text
starts with r's domain. -/
def writtenSummary (results : List DomainResult) (r : DomainResult) : Option String :=
  (results.map summaryLine).find? (fun s => hasPre r.domain.toList s.toList)

/-! ## Step relation for the worker scheduler of main (lines 161-203) -/

/-- Observable scheduler events: launching a worker for a task, a worker
exiting, and the inter-task sleep at the end of a loop iteration. -/
inductive Ev where
  | launch (t : Nat)
  | finish (t : Nat)
  | delay
deriving DecidableEq

/-- Scheduler state: tasks not yet launched, workers in flight, and
whether the inter-task sleep since the previous launch has elapsed. -/
structure SchedState where
  pending : List Nat
  running : List Nat
  ready : Bool
deriving DecidableEq

/-- One scheduler step of main with MAX-WORKERS = k.  A launch needs the
inter-task sleep to have elapsed and a free slot — the loop head blocks
while workers.size is at least k, and no suspension point separates that
check from workers.set.  A worker exit removes it from the map.  The
sleep at the end of the iteration re-arms launching. -/
inductive SchedStep (k : Nat) : SchedState → Ev → SchedState → Prop where
  | launch (s : SchedState) (t : Nat) (rest : List Nat) :
      s.pending = t :: rest → s.ready = true → s.running.length < k →
      SchedStep k s (Ev.launch t) ⟨rest, t :: s.running, false⟩
  | finish (s : SchedState) (t : Nat) :
      t ∈ s.running →
      SchedStep k s (Ev.finish t) ⟨s.pending, s.running.erase t, s.ready⟩
  | delay (s : SchedState) :
      s.ready = false →
      SchedStep k s Ev.delay ⟨s.pending, s.running, true⟩

/-- Multi-step reachability along a trace of events. -/
inductive Reaches (k : Nat) : SchedState → List Ev → SchedState → Prop where
  | nil (s : SchedState) : Reaches k s [] s
  | cons (s : SchedState) (e : Ev) (s' : SchedState) (tr : List Ev) (s'' : SchedState) :
      SchedStep k s e s' → Reaches k s' tr s'' → Reaches k s (e :: tr) s''

/-- The scheduler's initial state for a task list: nothing launched and
launching armed (the first iteration has no preceding sleep). -/
def initSched (tasks : List Nat) : SchedState := ⟨tasks, [], true⟩

/-- Sanity anchor: the worked example of the specification, section 8. -/
theorem classify_plumbing_example :
    classify "https://x.com/plumbing-repair-nj.html" = Classified.keyword "Plumbing Repair NJ" := by
  decide

/-- Sanity anchor: a single-token path is dropped by isValidKeyword. -/
theorem classify_about_example :
    classify "https://x.com/about" = Classified.rejected := by
  decide

/-- Sanity anchor: trailing slash is stripped and the last token nj is
upper-cased. -/
theorem classify_emergency_example :
    classify "https://x.com/emergency-plumber-nj/" = Classified.keyword "Emergency Plumber NJ" := by
  decide

/-! ## Helper lemmas about the substring tests -/

theorem hasPre_of_append (p : List Char) : ∀ (q s : List Char),
    hasPre (p ++ q) s = true → hasPre p s = true := by
  induction p with
  | nil => intro q s _h; rfl
  | cons a p ih =>
    intro q s h
    cases s with
    | nil => simp [hasPre] at h
    | cons c cs =>
      simp only [List.cons_append, hasPre, Bool.and_eq_true] at h ⊢
      exact ⟨h.1, ih q cs h.2⟩

theorem hasSub_of_append (p q : List Char) : ∀ (s : List Char),
    hasSub (p ++ q) s = true → hasSub p s = true := by
  intro s
  induction s with
  | nil =>
    intro h
    simp only [hasSub, List.isEmpty_iff, List.append_eq_nil] at h
    simp [hasSub, h.1, List.isEmpty_iff]
  | cons c cs ih =>
    intro h
    simp only [hasSub, Bool.or_eq_true] at h ⊢
    rcases h with h | h
    · exact Or.inl (hasPre_of_append p q _ h)
    · exact Or.inr (ih h)

/-! ## Partition of accepted phrases (claim C1) -/

theorem foldl_classifyStep (ts : List String) : ∀ acc : List String × List String,
    ts.foldl classifyStep acc = (acc.1 ++ ts.filter kwTest, acc.2 ++ ts.filter phTest) := by
  induction ts with
  | nil => intro acc; simp
  | cons p ts ih =>
    intro acc
    rw [List.foldl_cons]
    cases hE : strEndsNJ p <;> cases hV : isValidKeyword p <;>
      simp [classifyStep, kwTest, phTest, hE, hV, List.filter_cons, ih]

theorem classifyAcc_eq (ts : List String) :
    classifyAcc ts = (ts.filter kwTest, ts.filter phTest) := by
  unfold classifyAcc
  rw [foldl_classifyStep]
  simp

/-- C1: every URL entry accepted by the classifier (not blog-filtered,
transformed phrase nonempty and valid) has its phrase in keywords exactly
when the phrase ends with NJ, in phrases exactly otherwise; the phrase is
not dropped and lands in exactly one of the two sequences. -/
theorem accepted_phrase_partition (locs : List String) (u : String)
    (hmem : u ∈ locs) (hblog : blogTest u = false)
    (hlen : 0 < (transformUrl u).length) (hvalid : isValidKeyword (transformUrl u) = true) :
    (transformUrl u ∈ (classifyLocs locs).1 ↔ strEndsNJ (transformUrl u) = true)
    ∧ (transformUrl u ∈ (classifyLocs locs).2 ↔ strEndsNJ (transformUrl u) = false)
    ∧ (transformUrl u ∈ (classifyLocs locs).1 ∨ transformUrl u ∈ (classifyLocs locs).2)
    ∧ ¬(transformUrl u ∈ (classifyLocs locs).1 ∧ transformUrl u ∈ (classifyLocs locs).2) := by
  have hts : transformUrl u ∈
      ((locs.filter (fun v => !blogTest v)).map transformUrl).filter
        (fun t => decide (0 < t.length)) := by
    apply List.mem_filter.mpr
    refine ⟨List.mem_map_of_mem _ (List.mem_filter.mpr ⟨hmem, by rw [hblog]; rfl⟩), ?_⟩
    simpa using hlen
  unfold classifyLocs
  rw [classifyAcc_eq]
  have hkiff : transformUrl u ∈
      (((locs.filter (fun v => !blogTest v)).map transformUrl).filter
        (fun t => decide (0 < t.length))).filter kwTest
      ↔ strEndsNJ (transformUrl u) = true := by
    rw [List.mem_filter]
    unfold kwTest
    rw [hvalid, Bool.and_true]
    exact ⟨fun h => h.2, fun h => ⟨hts, h⟩⟩
  have hpiff : transformUrl u ∈
      (((locs.filter (fun v => !blogTest v)).map transformUrl).filter
        (fun t => decide (0 < t.length))).filter phTest
      ↔ strEndsNJ (transformUrl u) = false := by
    rw [List.mem_filter]
    unfold phTest
    rw [hvalid, Bool.and_true]
    constructor
    · intro h; simpa using h.2
    · intro h; exact ⟨hts, by simp [h]⟩
  refine ⟨hkiff, hpiff, ?_, ?_⟩
  · cases hE : strEndsNJ (transformUrl u)
    · exact Or.inr (hpiff.mpr hE)
    · exact Or.inl (hkiff.mpr hE)
  · rintro ⟨ha, hb⟩
    rw [hkiff] at ha
    rw [hpiff] at hb
    rw [ha] at hb
    exact Bool.noConfusion hb

/-- Witness for C1 at a concrete sitemap: the first URL transforms into
the keyword A B NJ, which lands in the keywords side. -/
theorem accepted_phrase_partition_witness :
    transformUrl "https://x.com/a-b-nj"
      ∈ (classifyLocs ["https://x.com/a-b-nj", "https://x.com/c-d"]).1
    ↔ strEndsNJ (transformUrl "https://x.com/a-b-nj") = true :=
  (accepted_phrase_partition ["https://x.com/a-b-nj", "https://x.com/c-d"]
    "https://x.com/a-b-nj" (by decide) (by decide) (by decide) (by decide)).1

/-! ## The blog rejection tests the whole URL (claim C2) -/

/-- Counterexample for C2 as stated: the code rejects a URL whose HOST
contains blog even though its path contains none of the five substrings,
so step-1 rejection does not depend on the path alone. -/
theorem blog_rejection_counterexample :
    blogTest "https://blog.example.com/services" = true
    ∧ pathBlogTest "https://blog.example.com/services" = false := by
  constructor
  · decide
  · decide

/-- C2 amended: the step-1 rejection applies the five-alternative test to
the ENTIRE raw URL string, and since every alternative starts with the
letters blog, it rejects exactly the URLs whose full text contains blog
case-insensitively. -/
theorem blog_rejection_amended (url : String) :
    blogTest url = hasSub "blog".toList (lowerC url.toList) := by
  unfold blogTest blogPatterns
  simp only [List.any_cons, List.any_nil, Bool.or_false]
  cases hb : hasSub "blog".toList (lowerC url.toList) with
  | true => simp [hb]
  | false =>
    have key : ∀ (w : String) (r : List Char), "blog".toList ++ r = w.toList →
        hasSub w.toList (lowerC url.toList) = false := by
      intro w r he
      cases h : hasSub w.toList (lowerC url.toList)
      · rfl
      · exfalso
        rw [← he] at h
        have h2 := hasSub_of_append "blog".toList r (lowerC url.toList) h
        rw [hb] at h2
        exact Bool.noConfusion h2
    have h2 := key "blogs" ['s'] (by decide)
    have h3 := key "blogging" "ging".toList (by decide)
    have h4 := key "blog-post" "-post".toList (by decide)
    have h5 := key "blog-posts" "-posts".toList (by decide)
    simp only [hb, Bool.false_or, Bool.or_eq_false_iff]
    exact ⟨by simpa using h2, by simpa using h3, by simpa using h4, by simpa using h5⟩

/-! ## Character tracking through the transform pipeline (claim C3) -/

theorem splitAux_chars : ∀ (cs acc : List Char), (∀ c ∈ acc, c ≠ ' ') →
    ∀ t ∈ splitAux cs acc, ∀ c ∈ t, (c ∈ cs ∨ c ∈ acc) ∧ c ≠ ' ' := by
  intro cs
  induction cs with
  | nil =>
    intro acc hacc t ht c hc
    simp only [splitAux, List.mem_singleton] at ht
    subst ht
    rw [List.mem_reverse] at hc
    exact ⟨Or.inr hc, hacc c hc⟩
  | cons c0 cs ih =>
    intro acc hacc t ht c hc
    by_cases h0 : c0 = ' '
    · subst h0
      simp only [splitAux, if_true, List.mem_cons] at ht
      rcases ht with ht1 | ht1
      · subst ht1
        rw [List.mem_reverse] at hc
        exact ⟨Or.inr hc, hacc c hc⟩
      · have h := ih [] (by intro x hx; cases hx) t ht1 c hc
        rcases h with ⟨h1 | h1, hne⟩
        · exact ⟨Or.inl (List.mem_cons_of_mem _ h1), hne⟩
        · cases h1
    · simp only [splitAux, if_neg h0] at ht
      have hacc' : ∀ x ∈ c0 :: acc, x ≠ ' ' := by
        intro x hx
        rcases List.mem_cons.mp hx with hx | hx
        · rw [hx]; exact h0
        · exact hacc x hx
      have h := ih (c0 :: acc) hacc' t ht c hc
      rcases h with ⟨h1 | h1, hne⟩
      · exact ⟨Or.inl (List.mem_cons_of_mem _ h1), hne⟩
      · rcases List.mem_cons.mp h1 with h1 | h1
        · exact ⟨Or.inl (by rw [h1]; exact List.mem_cons_self _ _), hne⟩
        · exact ⟨Or.inr h1, hne⟩

theorem mem_afterHost {orig : List Char} {c : Char} : ∀ {rest : List Char},
    (∀ x ∈ rest, x ∈ orig) → c ∈ afterHost orig rest → c ∈ orig := by
  intro rest hsub h
  cases rest with
  | nil => exact h
  | cons r rs =>
    simp only [afterHost] at h
    by_cases hr : r = '/'
    · rw [if_pos hr] at h; exact h
    · rw [if_neg hr] at h
      exact hsub c ((List.dropWhile_sublist _).mem h)

theorem mem_stripSchemeHostL {cs : List Char} {c : Char} :
    c ∈ stripSchemeHostL cs → c ∈ cs := by
  unfold stripSchemeHostL
  by_cases h1 : hasPre "https://".toList cs = true
  · rw [if_pos h1]
    exact mem_afterHost (fun x hx => List.mem_of_mem_drop hx)
  · rw [if_neg h1]
    by_cases h2 : hasPre "http://".toList cs = true
    · rw [if_pos h2]
      exact mem_afterHost (fun x hx => List.mem_of_mem_drop hx)
    · rw [if_neg h2]
      exact fun h => h

theorem mem_dropTrail {a : List Char} {c : Char} : c ∈ dropTrail a → c ∈ a := by
  unfold dropTrail
  by_cases hl : a.getLast? = some '/'
  · rw [if_pos hl]; exact fun h => (List.dropLast_sublist a).mem h
  · rw [if_neg hl]; exact fun h => h

theorem mem_stripEdgeSlashesL {cs : List Char} {c : Char} :
    c ∈ stripEdgeSlashesL cs → c ∈ cs := by
  unfold stripEdgeSlashesL
  intro h
  have h2 := mem_dropTrail h
  by_cases hh : cs.head? = some '/'
  · rw [if_pos hh] at h2; exact (List.tail_sublist cs).mem h2
  · rw [if_neg hh] at h2; exact h2

theorem mem_stripExtL {cs : List Char} {c : Char} :
    c ∈ stripExtL cs → c ∈ cs := by
  unfold stripExtL
  have back : ∀ (n : Nat), c ∈ (cs.reverse.drop n).reverse → c ∈ cs := by
    intro n h
    rw [List.mem_reverse] at h
    have h2 := List.mem_of_mem_drop h
    rw [List.mem_reverse] at h2
    exact h2
  by_cases h1 : endsL ".html".toList cs = true
  · rw [if_pos h1]; exact back 5
  · rw [if_neg h1]
    by_cases h2 : endsL ".php".toList cs = true
    · rw [if_pos h2]; exact back 4
    · rw [if_neg h2]; exact fun h => h

theorem mem_mapHyphen {cs : List Char} {c : Char} :
    c ∈ mapHyphen cs → c = ' ' ∨ c ∈ cs := by
  intro h
  unfold mapHyphen at h
  rcases List.mem_map.mp h with ⟨b, hb, he⟩
  by_cases hd : b = '-'
  · left; rw [← he, hd]; rfl
  · right; rw [← he, if_neg hd]; exact hb

/-- Every character of a token produced by the pipeline of lines 60-64 is
a non-space character of the raw URL. -/
theorem rawTokens_chars (url : String) (t : List Char) (ht : t ∈ rawTokens url)
    (c : Char) (hc : c ∈ t) : c ∈ url.toList ∧ c ≠ ' ' := by
  unfold rawTokens splitSp at ht
  have h := splitAux_chars _ [] (by intro x hx; cases hx) t ht c hc
  rcases h with ⟨h1 | h1, hne⟩
  · rcases mem_mapHyphen h1 with h2 | h2
    · exact absurd h2 hne
    · exact ⟨mem_stripSchemeHostL (mem_stripEdgeSlashesL (mem_stripExtL h2)), hne⟩
  · cases h1

/-- C3: on whitespace-free URLs (space is the only whitespace character a
URL may carry into the token stage) the code transform agrees with the
transformation the specification describes step by step, and the worked
example of the claim classifies as the Keyword Plumbing Repair NJ. -/
theorem transform_matches_spec :
    (∀ url : String, (∀ c ∈ url.toList, c.isWhitespace = true → c = ' ') →
      transformUrl url = claimTransformC3 url)
    ∧ classify "https://x.com/plumbing-repair-nj.html" = Classified.keyword "Plumbing Repair NJ" := by
  constructor
  · intro url hws
    unfold transformUrl claimTransformC3
    have hfil : (rawTokens url).filter blankT = (rawTokens url).filter (fun w => !w.isEmpty) := by
      apply List.filter_congr
      intro t ht
      cases t with
      | nil => simp [blankT]
      | cons c rest =>
        have hchar := rawTokens_chars url (c :: rest) ht c (List.mem_cons_self _ _)
        have hnws : c.isWhitespace = false := by
          cases hw : c.isWhitespace
          · rfl
          · exact absurd (hws c hchar.1 hw) hchar.2
        simp [blankT, hnws]
    rw [hfil]
  · exact classify_plumbing_example

/-- Witness for C3 at a concrete whitespace-free URL. -/
theorem transform_matches_spec_witness :
    transformUrl "https://x.com/water-heater-repair-nj.php"
      = claimTransformC3 "https://x.com/water-heater-repair-nj.php"
    ∧ classify "https://x.com/plumbing-repair-nj.html" = Classified.keyword "Plumbing Repair NJ" :=
  ⟨transform_matches_spec.1 "https://x.com/water-heater-repair-nj.php" (by decide),
   transform_matches_spec.2⟩

/-! ## The retry loop (claims C4, C6, C9) -/

/-- Full case analysis of the three-attempt retry loop: the outcome and
the recorded sleeps for every pattern of attempt results. -/
theorem retryRun_cases {α : Type} (step : Nat → Except String α) (delay : Nat) :
    (∀ r, step 1 = Except.ok r → retryRun step delay = (Except.ok r, []))
    ∧ (∀ e1 r, step 1 = Except.error e1 → step 2 = Except.ok r →
        retryRun step delay = (Except.ok r, [delay * 1]))
    ∧ (∀ e1 e2 r, step 1 = Except.error e1 → step 2 = Except.error e2 → step 3 = Except.ok r →
        retryRun step delay = (Except.ok r, [delay * 1, delay * 2]))
    ∧ (∀ e1 e2 e3, step 1 = Except.error e1 → step 2 = Except.error e2 → step 3 = Except.error e3 →
        retryRun step delay = (Except.error e3, [delay * 1, delay * 2])) := by
  refine ⟨?_, ?_, ?_, ?_⟩
  · intro r h1
    simp [retryRun, retryAux, h1]
  · intro e1 r h1 h2
    simp [retryRun, retryAux, h1, h2]
  · intro e1 e2 r h1 h2 h3
    simp [retryRun, retryAux, h1, h2, h3]
  · intro e1 e2 e3 h1 h2 h3
    simp [retryRun, retryAux, h1, h2, h3]

/-- A successful retry run got its value from one of the three attempts. -/
theorem retryRun_ok_inv {α : Type} (step : Nat → Except String α) (delay : Nat)
    (r : α) (sl : List Nat) (h : retryRun step delay = (Except.ok r, sl)) :
    step 1 = Except.ok r ∨ step 2 = Except.ok r ∨ step 3 = Except.ok r := by
  cases h1 : step 1 with
  | ok a1 =>
    left
    simp [retryRun, retryAux, h1] at h
    rw [h.1]
  | error e1 =>
    cases h2 : step 2 with
    | ok a2 =>
      right; left
      simp [retryRun, retryAux, h1, h2] at h
      rw [h.1]
    | error e2 =>
      cases h3 : step 3 with
      | ok a3 =>
        right; right
        simp [retryRun, retryAux, h1, h2, h3] at h
        rw [h.1]
      | error e3 =>
        exfalso
        simp [retryRun, retryAux, h1, h2, h3] at h

/-- Inversion of a successful attempt body: the fetch parsed, the locs
were extracted, the result carries exactly the classified lists, and the
processed keyword is the sentinel None exactly on an empty keyword list,
or the randomly indexed keyword otherwise. -/
theorem attemptBody_ok_inv (domain : String) (f : Except String XmlDoc) (ri : Nat)
    (g : Except String String) (res : DomainResult)
    (h : attemptBody domain f ri g = Except.ok res) :
    ∃ doc locs, f = Except.ok doc ∧ extractLocs doc = Except.ok locs
      ∧ res.domain = domain
      ∧ res.keywords = (classifyLocs locs).1
      ∧ res.phrases = (classifyLocs locs).2
      ∧ (((classifyLocs locs).1.length = 0 ∧ res.processedKeyword = "None")
         ∨ (0 < (classifyLocs locs).1.length
            ∧ res.processedKeyword = (classifyLocs locs).1.getD ri "")) := by
  cases hf : f with
  | error e => rw [hf] at h; simp [attemptBody] at h
  | ok doc =>
    rw [hf] at h
    cases hE : extractLocs doc with
    | error e => simp [attemptBody, hE] at h
    | ok locs =>
      refine ⟨doc, locs, rfl, hE, ?_⟩
      by_cases hl : 0 < (classifyLocs locs).1.length
      · cases hg : g with
        | error e => simp [attemptBody, hE, hl, hg] at h
        | ok a =>
          simp [attemptBody, hE, hl, hg] at h
          rw [← h]
          exact ⟨rfl, rfl, rfl, Or.inr ⟨hl, by rw [List.getD_eq_getElem?_getD]⟩⟩
      · simp [attemptBody, hE, hl] at h
        rw [← h]
        exact ⟨rfl, rfl, rfl, Or.inl ⟨by omega, rfl⟩⟩

/-- Every keyword produced by the classification ends with NJ, passes
isValidKeyword, and in particular is not the sentinel None. -/
theorem mem_keywords_props (locs : List String) (k : String)
    (hk : k ∈ (classifyLocs locs).1) :
    strEndsNJ k = true ∧ isValidKeyword k = true ∧ k ≠ "None" := by
  unfold classifyLocs at hk
  rw [classifyAcc_eq] at hk
  have hkw : kwTest k = true := (List.mem_filter.mp hk).2
  unfold kwTest at hkw
  rw [Bool.and_eq_true] at hkw
  refine ⟨hkw.1, hkw.2, ?_⟩
  intro hnone
  have hNJ := hkw.1
  rw [hnone] at hNJ
  have hfalse : strEndsNJ "None" = false := by decide
  rw [hfalse] at hNJ
  exact Bool.noConfusion hNJ

/-- An in-range getD draw is a member of the list. -/
theorem getD_mem {l : List String} {n : Nat} (h : n < l.length) : l.getD n "" ∈ l := by
  rw [List.getD_eq_getElem?_getD, List.getElem?_eq_getElem h]
  simp

/-- C4: the whole attempt sequence is retried with linear backoff.  An
invocation whose first two attempts fail and whose third succeeds is a
Success with sleeps delay*1 then delay*2; when the third attempt also
fails, that error propagates as the Failure outcome after the same
sleeps. -/
theorem processSitemap_retry_policy (domain : String) (fetch : Nat → Except String XmlDoc)
    (randIdx : Nat → Nat) (gen : Nat → Nat → Except String String) (delay : Nat) :
    (∀ e1 e2 res,
      processStep domain fetch randIdx gen delay 1 = Except.error e1 →
      processStep domain fetch randIdx gen delay 2 = Except.error e2 →
      processStep domain fetch randIdx gen delay 3 = Except.ok res →
      processSitemap domain fetch randIdx gen delay = (Except.ok res, [delay * 1, delay * 2]))
    ∧ (∀ e1 e2 e3,
      processStep domain fetch randIdx gen delay 1 = Except.error e1 →
      processStep domain fetch randIdx gen delay 2 = Except.error e2 →
      processStep domain fetch randIdx gen delay 3 = Except.error e3 →
      processSitemap domain fetch randIdx gen delay = (Except.error e3, [delay * 1, delay * 2])) := by
  constructor
  · intro e1 e2 res h1 h2 h3
    unfold processSitemap
    exact (retryRun_cases _ delay).2.2.1 e1 e2 res h1 h2 h3
  · intro e1 e2 e3 h1 h2 h3
    unfold processSitemap
    exact (retryRun_cases _ delay).2.2.2 e1 e2 e3 h1 h2 h3

/-- Concrete well-formed sitemap document used by witnesses. -/
def docW : XmlDoc :=
  ⟨some ⟨some [⟨["https://x.com/a-b-nj"]⟩, ⟨["https://x.com/c-d"]⟩]⟩⟩

/-- Concrete result of processing docW with random index 0 and a
successful article generation. -/
def resW : DomainResult :=
  ⟨"x.com", ["A B NJ"], ["C D"], "A B NJ"⟩

/-- Witness for C4: with a fetch oracle failing on the first two attempts
and succeeding on the third, the run is a Success with sleeps 10 and 20;
with an always-failing oracle it is a Failure with the same sleeps. -/
theorem processSitemap_retry_policy_witness :
    processSitemap "x.com" (fun n => if n ≤ 2 then Except.error "net" else Except.ok docW)
      (fun _ => 0) (fun _ _ => Except.ok "article") 10
      = (Except.ok resW, [10 * 1, 10 * 2])
    ∧ processSitemap "x.com" (fun _ => Except.error "net")
      (fun _ => 0) (fun _ _ => Except.ok "article") 10
      = (Except.error "net", [10 * 1, 10 * 2]) :=
  ⟨(processSitemap_retry_policy "x.com"
      (fun n => if n ≤ 2 then Except.error "net" else Except.ok docW)
      (fun _ => 0) (fun _ _ => Except.ok "article") 10).1 "net" "net" resW rfl rfl rfl,
   (processSitemap_retry_policy "x.com" (fun _ => Except.error "net")
      (fun _ => 0) (fun _ _ => Except.ok "article") 10).2 "net" "net" "net" rfl rfl rfl⟩

/-- C6: when the inner generateArticle loop exhausts its three attempts on
the first outer attempt, its final error becomes the failure of the WHOLE
first attempt, and the outer loop then re-runs the entire step sequence:
a second attempt that succeeds from its own fetch yields that attempt's
result as the Success outcome after a single sleep of delay times one. -/
theorem generateArticle_exhaustion_retries_whole_task (domain : String)
    (fetch : Nat → Except String XmlDoc) (randIdx : Nat → Nat)
    (gen : Nat → Nat → Except String String) (delay : Nat) (doc1 : XmlDoc)
    (locs1 : List String) (eg : Nat → String) (res2 : DomainResult)
    (hf : fetch 1 = Except.ok doc1)
    (he : extractLocs doc1 = Except.ok locs1)
    (hl : 0 < (classifyLocs locs1).1.length)
    (hg : ∀ m, gen 1 m = Except.error (eg m))
    (h2 : processStep domain fetch randIdx gen delay 2 = Except.ok res2) :
    (generateArticle (gen 1) delay).1 = Except.error (eg 3)
    ∧ processStep domain fetch randIdx gen delay 1 = Except.error (eg 3)
    ∧ processSitemap domain fetch randIdx gen delay = (Except.ok res2, [delay * 1]) := by
  have hga : generateArticle (gen 1) delay = (Except.error (eg 3), [delay * 1, delay * 2]) := by
    unfold generateArticle
    exact (retryRun_cases (gen 1) delay).2.2.2 (eg 1) (eg 2) (eg 3) (hg 1) (hg 2) (hg 3)
  have hstep1 : processStep domain fetch randIdx gen delay 1 = Except.error (eg 3) := by
    unfold processStep
    rw [hga, hf]
    simp [attemptBody, he, hl]
  refine ⟨by rw [hga], hstep1, ?_⟩
  unfold processSitemap
  exact (retryRun_cases _ delay).2.1 (eg 3) res2 hstep1 h2

/-- Witness for C6: attempt 1 fetches docW but all three completion calls
fail; attempt 2 succeeds end to end and its result is the outcome. -/
theorem generateArticle_exhaustion_witness :
    (generateArticle ((fun n _m => if n = 1 then Except.error "llm" else Except.ok "article") 1) 10).1
      = Except.error "llm"
    ∧ processStep "x.com" (fun _ => Except.ok docW) (fun _ => 0)
        (fun n _m => if n = 1 then Except.error "llm" else Except.ok "article") 10 1
      = Except.error "llm"
    ∧ processSitemap "x.com" (fun _ => Except.ok docW) (fun _ => 0)
        (fun n _m => if n = 1 then Except.error "llm" else Except.ok "article") 10
      = (Except.ok resW, [10 * 1]) :=
  generateArticle_exhaustion_retries_whole_task "x.com" (fun _ => Except.ok docW)
    (fun _ => 0) (fun n _m => if n = 1 then Except.error "llm" else Except.ok "article") 10
    docW ["https://x.com/a-b-nj", "https://x.com/c-d"] (fun _ => "llm") resW
    rfl rfl (by decide) (fun _ => rfl) rfl

/-- C9: when every attempt parses to a document with no urlset root or an
urlset without url entries, the entry access fails, the failure is
retried to the ceiling (sleeps delay*1 and delay*2), and the unit ends in
a Failure outcome — never a Success with empty lists. -/
theorem missing_urlset_is_failure (domain : String) (fetch : Nat → Except String XmlDoc)
    (randIdx : Nat → Nat) (gen : Nat → Nat → Except String String) (delay : Nat)
    (hbad : ∀ n, 1 ≤ n → n ≤ 3 → ∃ doc, fetch n = Except.ok doc ∧
      (doc.urlset = none ∨ ∃ us, doc.urlset = some us ∧ us.url = none)) :
    (∃ e, processSitemap domain fetch randIdx gen delay = (Except.error e, [delay * 1, delay * 2]))
    ∧ ∀ res sl, processSitemap domain fetch randIdx gen delay ≠ (Except.ok res, sl) := by
  have hstep : ∀ n, 1 ≤ n → n ≤ 3 →
      ∃ e, processStep domain fetch randIdx gen delay n = Except.error e := by
    intro n hn1 hn3
    obtain ⟨doc, hf, hb⟩ := hbad n hn1 hn3
    have hE : ∃ e, extractLocs doc = Except.error e := by
      rcases hb with h | ⟨us, h1, h2⟩
      · exact ⟨"TypeError: urlset undefined", by simp [extractLocs, h]⟩
      · exact ⟨"TypeError: url undefined", by simp [extractLocs, h1, h2]⟩
    obtain ⟨e, he⟩ := hE
    refine ⟨e, ?_⟩
    unfold processStep
    rw [hf]
    simp [attemptBody, he]
  obtain ⟨e1, h1⟩ := hstep 1 (by omega) (by omega)
  obtain ⟨e2, h2⟩ := hstep 2 (by omega) (by omega)
  obtain ⟨e3, h3⟩ := hstep 3 (by omega) (by omega)
  have hrun := (retryRun_cases (processStep domain fetch randIdx gen delay) delay).2.2.2
    e1 e2 e3 h1 h2 h3
  constructor
  · exact ⟨e3, by unfold processSitemap; exact hrun⟩
  · intro res sl hcon
    unfold processSitemap at hcon
    rw [hrun] at hcon
    simp at hcon

/-- Witness for C9 with a document whose root is not urlset. -/
theorem missing_urlset_is_failure_witness :
    (∃ e, processSitemap "x.com" (fun _ => Except.ok ⟨none⟩) (fun _ => 0)
        (fun _ _ => Except.ok "article") 10 = (Except.error e, [10 * 1, 10 * 2]))
    ∧ ∀ res sl, processSitemap "x.com" (fun _ => Except.ok ⟨none⟩) (fun _ => 0)
        (fun _ _ => Except.ok "article") 10 ≠ (Except.ok res, sl) :=
  missing_urlset_is_failure "x.com" (fun _ => Except.ok ⟨none⟩) (fun _ => 0)
    (fun _ _ => Except.ok "article") 10
    (fun _ _ _ => ⟨⟨none⟩, rfl, Or.inl rfl⟩)

/-! ## Processed keyword of a Success outcome (claims C5 and C10) -/

/-- rangeOk says each attempt's random index is in range whenever the
attempt's keyword list is nonempty — which JS guarantees, since the draw
is the floor of a number below one times the length. -/
def rangeOk (fetch : Nat → Except String XmlDoc) (randIdx : Nat → Nat) : Prop :=
  ∀ n doc locs, fetch n = Except.ok doc → extractLocs doc = Except.ok locs →
    (classifyLocs locs).1 = [] ∨ randIdx n < (classifyLocs locs).1.length

/-- Core inversion shared by C5 and C10: a successful attempt yields a
result whose processed keyword is the sentinel None exactly on an empty
keyword list and a member of the keyword list otherwise. -/
theorem success_processedKeyword (domain : String) (fetch : Nat → Except String XmlDoc)
    (randIdx : Nat → Nat) (gen : Nat → Nat → Except String String) (delay : Nat)
    (res : DomainResult) (n : Nat)
    (hra : rangeOk fetch randIdx)
    (hn : processStep domain fetch randIdx gen delay n = Except.ok res) :
    (res.processedKeyword = "None" ↔ res.keywords = [])
    ∧ (res.keywords ≠ [] → res.processedKeyword ∈ res.keywords) := by
  unfold processStep at hn
  obtain ⟨doc, locs, hf, he, _hdom, hkw, _hph, hcase⟩ :=
    attemptBody_ok_inv domain (fetch n) (randIdx n) (generateArticle (gen n) delay).1 res hn
  rcases hcase with ⟨hlen, hpk⟩ | ⟨hlen, hpk⟩
  · have hnil : (classifyLocs locs).1 = [] := List.length_eq_zero.mp hlen
    constructor
    · rw [hpk, hkw, hnil]; simp
    · intro hne; rw [hkw, hnil] at hne; exact absurd rfl hne
  · have hri : randIdx n < (classifyLocs locs).1.length := by
      rcases hra n doc locs hf he with h | h
      · rw [h] at hlen; simp at hlen
      · exact h
    have hmem : (classifyLocs locs).1.getD (randIdx n) "" ∈ (classifyLocs locs).1 :=
      getD_mem hri
    have hprops := mem_keywords_props locs _ hmem
    constructor
    · constructor
      · intro hN; rw [hpk] at hN; exact absurd hN hprops.2.2
      · intro hnil; rw [← hkw, hnil] at hlen; simp at hlen
    · intro _; rw [hpk, hkw]; exact hmem

/-- C5: in every Success outcome the processed keyword is the literal None
exactly when the keyword list is empty; on a nonempty keyword list it is
one of the keywords; and an article-generation failure makes the whole
attempt fail rather than produce a Success carrying None. -/
theorem processedKeyword_none_iff (domain : String) (fetch : Nat → Except String XmlDoc)
    (randIdx : Nat → Nat) (gen : Nat → Nat → Except String String) (delay : Nat)
    (res : DomainResult) (sleeps : List Nat)
    (hra : rangeOk fetch randIdx)
    (hs : processSitemap domain fetch randIdx gen delay = (Except.ok res, sleeps)) :
    (res.processedKeyword = "None" ↔ res.keywords = [])
    ∧ (res.keywords ≠ [] → res.processedKeyword ∈ res.keywords)
    ∧ (∀ n doc locs e, fetch n = Except.ok doc → extractLocs doc = Except.ok locs →
        (classifyLocs locs).1 ≠ [] → (generateArticle (gen n) delay).1 = Except.error e →
        processStep domain fetch randIdx gen delay n = Except.error e) := by
  have hok := retryRun_ok_inv (processStep domain fetch randIdx gen delay) delay res sleeps hs
  have part12 : (res.processedKeyword = "None" ↔ res.keywords = [])
      ∧ (res.keywords ≠ [] → res.processedKeyword ∈ res.keywords) := by
    rcases hok with h | h | h
    · exact success_processedKeyword domain fetch randIdx gen delay res 1 hra h
    · exact success_processedKeyword domain fetch randIdx gen delay res 2 hra h
    · exact success_processedKeyword domain fetch randIdx gen delay res 3 hra h
  refine ⟨part12.1, part12.2, ?_⟩
  intro n doc locs e hf he hne hg
  unfold processStep
  rw [hf, hg]
  have hlen : 0 < (classifyLocs locs).1.length := List.length_pos.mpr hne
  simp [attemptBody, he, hlen]

/-- Witness for C5 at a concrete successful run. -/
theorem processedKeyword_none_iff_witness :
    (resW.processedKeyword = "None" ↔ resW.keywords = [])
    ∧ (resW.keywords ≠ [] → resW.processedKeyword ∈ resW.keywords) := by
  have h := processedKeyword_none_iff "x.com" (fun _ => Except.ok docW) (fun _ => 0)
    (fun _ _ => Except.ok "article") 10 resW []
    (by
      intro n doc locs hf he
      injection hf with hf
      rw [← hf] at he
      have hl : locs = ["https://x.com/a-b-nj", "https://x.com/c-d"] := by
        have : extractLocs docW = Except.ok ["https://x.com/a-b-nj", "https://x.com/c-d"] := rfl
        rw [this] at he
        injection he with he
        exact he.symm
      rw [hl]
      right
      exact (by decide :
        (0 : Nat) < (classifyLocs ["https://x.com/a-b-nj", "https://x.com/c-d"]).1.length))
    rfl
  exact ⟨h.1, h.2.1⟩

/-- C10: in every Success outcome the processed keyword is either the
sentinel None or an element of the keyword list, and every keyword in the
list ends with NJ, passes isValidKeyword, and so never collides with the
sentinel None. -/
theorem processedKeyword_in_keywords (domain : String) (fetch : Nat → Except String XmlDoc)
    (randIdx : Nat → Nat) (gen : Nat → Nat → Except String String) (delay : Nat)
    (res : DomainResult) (sleeps : List Nat)
    (hra : rangeOk fetch randIdx)
    (hs : processSitemap domain fetch randIdx gen delay = (Except.ok res, sleeps)) :
    (res.processedKeyword = "None" ∨ res.processedKeyword ∈ res.keywords)
    ∧ ∀ k ∈ res.keywords, strEndsNJ k = true ∧ isValidKeyword k = true ∧ k ≠ "None" := by
  have hok := retryRun_ok_inv (processStep domain fetch randIdx gen delay) delay res sleeps hs
  have main : ∀ n, processStep domain fetch randIdx gen delay n = Except.ok res →
      (res.processedKeyword = "None" ∨ res.processedKeyword ∈ res.keywords)
      ∧ ∀ k ∈ res.keywords, strEndsNJ k = true ∧ isValidKeyword k = true ∧ k ≠ "None" := by
    intro n hn
    have h12 := success_processedKeyword domain fetch randIdx gen delay res n hra hn
    unfold processStep at hn
    obtain ⟨doc, locs, _hf, _he, _hdom, hkw, _hph, _hcase⟩ :=
      attemptBody_ok_inv domain (fetch n) (randIdx n) (generateArticle (gen n) delay).1 res hn
    constructor
    · by_cases hnil : res.keywords = []
      · exact Or.inl (h12.1.mpr hnil)
      · exact Or.inr (h12.2 hnil)
    · intro k hk
      rw [hkw] at hk
      exact mem_keywords_props locs k hk
  rcases hok with h | h | h
  · exact main 1 h
  · exact main 2 h
  · exact main 3 h

/-- Witness for C10 at the same concrete successful run. -/
theorem processedKeyword_in_keywords_witness :
    (resW.processedKeyword = "None" ∨ resW.processedKeyword ∈ resW.keywords)
    ∧ ∀ k ∈ resW.keywords, strEndsNJ k = true ∧ isValidKeyword k = true ∧ k ≠ "None" :=
  processedKeyword_in_keywords "x.com" (fun _ => Except.ok docW) (fun _ => 0)
    (fun _ _ => Except.ok "article") 10 resW []
    (by
      intro n doc locs hf he
      injection hf with hf
      rw [← hf] at he
      have hcomp : extractLocs docW = Except.ok ["https://x.com/a-b-nj", "https://x.com/c-d"] := rfl
      rw [hcomp] at he
      injection he with he
      rw [← he]
      right
      exact (by decide :
        (0 : Nat) < (classifyLocs ["https://x.com/a-b-nj", "https://x.com/c-d"]).1.length))
    rfl

/-! ## The scheduler invariants (claim C7) -/

/-- Reachability preserves the in-flight bound: a launch requires a free
slot, an exit only removes, a sleep changes nothing. -/
theorem sched_count_le (k : Nat) (s : SchedState) (tr : List Ev) (s' : SchedState)
    (h : Reaches k s tr s') : s.running.length ≤ k → s'.running.length ≤ k := by
  induction h with
  | nil _ => exact fun h => h
  | cons s e s1 tr s2 hstep _hreach ih =>
    intro hle
    apply ih
    cases hstep with
    | launch t rest _hp _hr hlt => simpa using hlt
    | finish t _ht => exact le_trans ((List.erase_sublist _ _).length_le) hle
    | delay _h => exact hle

/-- From an un-armed state, a trace without a sleep contains no launch
and leaves the state un-armed. -/
theorem sched_no_launch_without_delay (k : Nat) (s : SchedState) (tr : List Ev)
    (s' : SchedState) (h : Reaches k s tr s') :
    s.ready = false → Ev.delay ∉ tr → (∀ t, Ev.launch t ∉ tr) ∧ s'.ready = false := by
  induction h with
  | nil _ => exact fun hr _ => ⟨fun _ => List.not_mem_nil _, hr⟩
  | cons s e s1 tr s2 hstep _hreach ih =>
    intro hready hnd
    have hne : e ≠ Ev.delay := fun hh => hnd (hh ▸ List.mem_cons_self _ _)
    have hnd' : Ev.delay ∉ tr := fun hh => hnd (List.mem_cons_of_mem _ hh)
    cases hstep with
    | launch t rest _hp hr _hlt => rw [hready] at hr; exact Bool.noConfusion hr
    | finish t _ht =>
      have hrest := ih hready hnd'
      refine ⟨fun t' hmem => ?_, hrest.2⟩
      rcases List.mem_cons.mp hmem with hmem | hmem
      · exact Ev.noConfusion hmem
      · exact hrest.1 t' hmem
    | delay _h => exact absurd rfl hne

/-- A reachability derivation splits at any decomposition of its trace. -/
theorem reaches_append (k : Nat) : ∀ (tr1 tr2 : List Ev) (s s'' : SchedState),
    Reaches k s (tr1 ++ tr2) s'' → ∃ s', Reaches k s tr1 s' ∧ Reaches k s' tr2 s'' := by
  intro tr1
  induction tr1 with
  | nil => exact fun tr2 s s'' h => ⟨s, Reaches.nil s, h⟩
  | cons e tr1 ih =>
    intro tr2 s s'' h
    cases h with
    | cons _ _ s1 _ _ hstep hreach =>
      obtain ⟨s', h1, h2⟩ := ih tr2 s1 s'' hreach
      exact ⟨s', Reaches.cons _ _ _ _ _ hstep h1, h2⟩

/-- A launch leaves the launch flag un-armed. -/
theorem launch_unarms {k : Nat} {s s' : SchedState} {t : Nat}
    (h : SchedStep k s (Ev.launch t) s') : s'.ready = false := by
  cases h; rfl

/-- C7: from the initial state, every reachable scheduler state has at
most k units in flight, and every trace puts at least one inter-task
sleep strictly between any two launches. -/
theorem scheduler_bounded (k : Nat) (tasks : List Nat) (tr : List Ev) (s : SchedState)
    (h : Reaches k (initSched tasks) tr s) :
    s.running.length ≤ k
    ∧ (∀ (l1 : List Ev) (a : Nat) (l2 : List Ev) (b : Nat) (l3 : List Ev),
        tr = l1 ++ Ev.launch a :: l2 ++ Ev.launch b :: l3 → Ev.delay ∈ l2) := by
  constructor
  · exact sched_count_le k _ tr s h (by simp [initSched])
  · intro l1 a l2 b l3 htr
    by_contra hnd
    subst htr
    obtain ⟨sMid, hfront, hback⟩ :=
      reaches_append k (l1 ++ (Ev.launch a :: l2)) (Ev.launch b :: l3) (initSched tasks) s h
    obtain ⟨s1, _h1, h2⟩ :=
      reaches_append k l1 (Ev.launch a :: l2) (initSched tasks) sMid hfront
    cases h2 with
    | cons _ _ s2 _ _ hstep hreach =>
      have hs2 : s2.ready = false := launch_unarms hstep
      have hm := sched_no_launch_without_delay k s2 l2 sMid hreach hs2 hnd
      cases hback with
      | cons _ _ s4 _ _ hstep2 _ =>
        cases hstep2 with
        | launch _ _ _hp hr _hlt => rw [hm.2] at hr; exact Bool.noConfusion hr

/-- Witness for C7: two tasks under concurrency bound one — the second
launch happens only after the first worker exits and the sleep elapses,
and the bound holds at the final state. -/
theorem scheduler_bounded_witness :
    (SchedState.mk ([] : List Nat) [8] false).running.length ≤ 1
    ∧ Ev.delay ∈ [Ev.finish 7, Ev.delay] := by
  have hreach : Reaches 1 (initSched [7, 8])
      [Ev.launch 7, Ev.finish 7, Ev.delay, Ev.launch 8] ⟨[], [8], false⟩ := by
    refine Reaches.cons _ _ ⟨[8], [7], false⟩ _ _
      (SchedStep.launch _ 7 [8] rfl rfl (by decide)) ?_
    refine Reaches.cons _ _ ⟨[8], [7].erase 7, false⟩ _ _
      (SchedStep.finish _ 7 (by decide)) ?_
    refine Reaches.cons _ _ ⟨[8], [7].erase 7, true⟩ _ _
      (SchedStep.delay _ rfl) ?_
    refine Reaches.cons _ _ ⟨[], 8 :: [7].erase 7, false⟩ _ _
      (SchedStep.launch _ 8 [] rfl rfl (by decide)) ?_
    exact Reaches.nil _
  have h := scheduler_bounded 1 [7, 8] _ _ hreach
  exact ⟨h.1, h.2 [] 7 [Ev.finish 7, Ev.delay] 8 [] rfl⟩

/-! ## The summary write of main (claim C8) -/

/-- C8 fails on the code: with two successful results where the first
domain's text begins with the second domain's text, the find-by-startsWith
on line 212 writes the FIRST domain's summary line into the SECOND
domain's output directory, reporting the other domain's counts. -/
theorem summary_mixup_eval :
    writtenSummary
      [⟨"a.com.au", ["Alpha NJ"], [], "Alpha NJ"⟩, ⟨"a.com", ["Beta NJ"], ["c d"], "Beta NJ"⟩]
      ⟨"a.com", ["Beta NJ"], ["c d"], "Beta NJ"⟩
      = some (summaryLine ⟨"a.com.au", ["Alpha NJ"], [], "Alpha NJ"⟩)
    ∧ summaryLine ⟨"a.com.au", ["Alpha NJ"], [], "Alpha NJ"⟩
      ≠ summaryLine ⟨"a.com", ["Beta NJ"], ["c d"], "Beta NJ"⟩ := by
  constructor
  · rfl
  · decide

end Scraper
